import Mathlib

/-!
Verification of the query-orchestration and resilience core of the
ai-cfo-phoenix repository.

The repository ships the resilience core (`backend/services/resilience_service.py`,
`backend/agents/meta_orchestrator.py`, `backend/services/ssh_service.py`) only
through its documentation (`docs/AMELIORATIONS_IMPLEMENTEES.md`, the v3.0 guide)
and its frontend callers; the sources present under `src/` that contain
executable core logic are the reference remote agent embedded in the SSH guide
(`src/unnamed/part_004`, `test_agent.py`).  Definitions below that embed the
missing backend components are modelled from the specification and say so in
their doc comments; the remote test agent is embedded directly from the source.
-/

namespace AiCfo

/-- Modelled from the spec: the three states of the per-target circuit breaker
(`backend/services/resilience_service.py` is absent from `src/`); spec §4.4. -/
inductive CBState where
  | closed
  | opened
  | halfOpen
deriving DecidableEq, Repr

/-- Modelled from the spec: `CircuitBreakerState` record of §3 — one per routing
target, with consecutive_failures, opened_at, failure_threshold and
recovery_timeout.  Timestamps are naturals (seconds). -/
structure CircuitBreaker where
  state : CBState
  consecutive_failures : Nat
  opened_at : Nat
  failure_threshold : Nat
  recovery_timeout : Nat
deriving DecidableEq, Repr

/-- Modelled from the spec: outcome of a breaker-guarded call — either the
wrapped operation ran and produced a success/failure, or the breaker
failed fast with `CircuitOpenError`. -/
inductive CallOutcome where
  | result (ok : Bool)
  | circuitOpenError
deriving DecidableEq, Repr

/-- Modelled from the spec: `Closed` bookkeeping on a failed attempt —
consecutive_failures is incremented and, when it reaches failure_threshold,
the breaker opens and opened_at is recorded (§4.4 `Closed → Open`). -/
def recordFailure (cb : CircuitBreaker) (now : Nat) : CircuitBreaker :=
  let cf := cb.consecutive_failures + 1
  if cb.failure_threshold ≤ cf then
    { cb with state := .opened, consecutive_failures := cf, opened_at := now }
  else
    { cb with consecutive_failures := cf }

/-- Modelled from the spec: any success while `Closed` resets
consecutive_failures to 0 (§4.4 `Closed → Closed`). -/
def recordSuccess (cb : CircuitBreaker) : CircuitBreaker :=
  { cb with state := .closed, consecutive_failures := 0 }

/-- Modelled from the spec: `call(target, operation)` of §4.4.  `op` is the
success/failure outcome the wrapped operation would produce if it were
invoked; when the breaker fails fast the result does not depend on `op`,
which is how "the operation is never invoked" is expressed in this embedding.
The `Open → HalfOpen` transition is checked lazily on the call itself, and
the same call is the single trial attempt let through. -/
def call (cb : CircuitBreaker) (now : Nat) (op : Bool) : CallOutcome × CircuitBreaker :=
  match cb.state with
  | .closed =>
      if op then (.result true, recordSuccess cb)
      else (.result false, recordFailure cb now)
  | .opened =>
      if cb.recovery_timeout ≤ now - cb.opened_at then
        if op then (.result true, { cb with state := .closed, consecutive_failures := 0 })
        else (.result false, { cb with state := .opened, opened_at := now })
      else
        (.circuitOpenError, cb)
  | .halfOpen =>
      if op then (.result true, { cb with state := .closed, consecutive_failures := 0 })
      else (.result false, { cb with state := .opened, opened_at := now })

/-- Modelled from the spec: a sequence of guarded invocations against one
target, each event being (timestamp, operation outcome). -/
def runCalls (cb : CircuitBreaker) (events : List (Nat × Bool)) : CircuitBreaker :=
  events.foldl (fun c e => (call c e.1 e.2).2) cb

/-- A list of timed failures, fed to `runCalls`. -/
def failEvents (times : List Nat) : List (Nat × Bool) :=
  times.map (fun τ => (τ, false))

theorem runCalls_append (cb : CircuitBreaker) (l₁ l₂ : List (Nat × Bool)) :
    runCalls cb (l₁ ++ l₂) = runCalls (runCalls cb l₁) l₂ := by
  simp [runCalls, List.foldl_append]

/-- A failed attempt while closed with the incremented count reaching the
threshold opens the breaker and records opened_at. -/
theorem call_fail_opens (cb : CircuitBreaker) (now : Nat) (hs : cb.state = .closed)
    (h : cb.failure_threshold ≤ cb.consecutive_failures + 1) :
    (call cb now false).2 =
      { cb with state := .opened,
                consecutive_failures := cb.consecutive_failures + 1,
                opened_at := now } := by
  simp [call, hs, recordFailure, h]

/-- While closed and strictly below threshold, failures only count up:
state, thresholds and opened_at are untouched. -/
theorem runCalls_failures_below_threshold (l : List Nat) :
    ∀ (cb : CircuitBreaker), cb.state = .closed →
      cb.consecutive_failures + l.length < cb.failure_threshold →
      runCalls cb (failEvents l) =
        { cb with consecutive_failures := cb.consecutive_failures + l.length } := by
  induction l with
  | nil =>
      intro cb hs _
      simp [runCalls, failEvents]
  | cons τ rest ih =>
      intro cb hs hlt
      have hstep : (call cb τ false).2 =
          { cb with consecutive_failures := cb.consecutive_failures + 1 } := by
        simp only [call, hs]
        have : ¬ cb.failure_threshold ≤ cb.consecutive_failures + 1 := by
          simp only [List.length_cons] at hlt
          omega
        simp [recordFailure, this, hs]
      have : runCalls cb (failEvents (τ :: rest)) =
          runCalls (call cb τ false).2 (failEvents rest) := by
        simp [runCalls, failEvents]
      rw [this, hstep]
      have hrest := ih { cb with consecutive_failures := cb.consecutive_failures + 1 }
        (by simp [hs]) (by simp only [List.length_cons] at hlt; simp; omega)
      rw [hrest]
      simp only [List.length_cons]
      congr 1
      omega

/-- C1: for every sequence of invocation outcomes against one target, a breaker
that starts Closed with zero consecutive_failures transitions to Open exactly at
the attempt on which consecutive_failures reaches failure_threshold — a strictly
shorter failure run leaves it Closed with the exact count, the threshold-th
failure opens it and records opened_at at that transition — and any success
while Closed resets consecutive_failures to 0. -/
theorem breaker_opens_exactly_at_threshold
    (t rt : Nat) (ht : 0 < t) (times : List Nat) :
    (∀ n, n ≤ times.length → n < t →
        (runCalls (CircuitBreaker.mk .closed 0 0 t rt) (failEvents (times.take n))).state
            = .closed ∧
        (runCalls (CircuitBreaker.mk .closed 0 0 t rt)
            (failEvents (times.take n))).consecutive_failures = n) ∧
    (∀ τ, times.get? (t - 1) = some τ →
        (runCalls (CircuitBreaker.mk .closed 0 0 t rt) (failEvents (times.take t))).state
            = .opened ∧
        (runCalls (CircuitBreaker.mk .closed 0 0 t rt)
            (failEvents (times.take t))).opened_at = τ ∧
        (runCalls (CircuitBreaker.mk .closed 0 0 t rt)
            (failEvents (times.take t))).consecutive_failures = t) ∧
    (∀ cb now, cb.state = .closed →
        (call cb now true).2.state = .closed ∧
        (call cb now true).2.consecutive_failures = 0) := by
  refine ⟨?_, ?_, ?_⟩
  · intro n hn hlt
    have hlen : (times.take n).length = n := by
      simp [List.length_take, Nat.min_eq_left hn]
    have := runCalls_failures_below_threshold (times.take n)
      (CircuitBreaker.mk .closed 0 0 t rt) rfl (by simp [hlen]; omega)
    rw [this]
    simp [hlen]
  · intro τ hget
    have hidx : t - 1 < times.length := List.get?_eq_some.mp hget |>.1
    have hget2 : times[t - 1]? = some τ := by
      rw [← List.get?_eq_getElem?]; exact hget
    have htake : times.take t = times.take (t - 1) ++ [τ] := by
      conv_lhs => rw [show t = (t - 1) + 1 by omega]
      rw [List.take_succ, hget2]
      simp
    have hlen : (times.take (t - 1)).length = t - 1 := by
      rw [List.length_take]
      omega
    have hbelow := runCalls_failures_below_threshold (times.take (t - 1))
      (CircuitBreaker.mk .closed 0 0 t rt) rfl
      (by show 0 + (times.take (t - 1)).length < t; rw [hlen]; omega)
    rw [htake]
    have hsplit : failEvents (times.take (t - 1) ++ [τ])
        = failEvents (times.take (t - 1)) ++ failEvents [τ] := by
      simp [failEvents]
    rw [hsplit, runCalls_append, hbelow]
    have hrun : ∀ (c : CircuitBreaker) (τ0 : Nat),
        runCalls c (failEvents [τ0]) = (call c τ0 false).2 := fun _ _ => rfl
    rw [hrun, call_fail_opens]
    · exact ⟨rfl, rfl, by show 0 + (times.take (t - 1)).length + 1 = t; rw [hlen]; omega⟩
    · rfl
    · show t ≤ 0 + (times.take (t - 1)).length + 1
      rw [hlen]; omega
  · intro cb now hs
    simp [call, hs, recordSuccess]

theorem breaker_opens_exactly_at_threshold_witness :
    (runCalls (CircuitBreaker.mk .closed 0 0 5 60)
        (failEvents ([10, 20, 30, 40, 50].take 4))).state = .closed ∧
    (runCalls (CircuitBreaker.mk .closed 0 0 5 60)
        (failEvents ([10, 20, 30, 40, 50].take 5))).state = .opened ∧
    (runCalls (CircuitBreaker.mk .closed 0 0 5 60)
        (failEvents ([10, 20, 30, 40, 50].take 5))).opened_at = 50 := by
  have h := breaker_opens_exactly_at_threshold 5 60 (by decide) [10, 20, 30, 40, 50]
  exact ⟨(h.1 4 (by decide) (by decide)).1,
    (h.2.1 50 (by decide)).1, (h.2.1 50 (by decide)).2.1⟩

/-- C2: on a target whose breaker is Open, a call before recovery_timeout
elapses returns CircuitOpenError with the breaker untouched and without the
wrapped operation being invoked (the result is independent of the operation
outcome `op`); a call at or after recovery_timeout is the single HalfOpen trial:
on success the breaker closes with failures reset to 0, on failure it returns
to Open with opened_at reset to now. -/
theorem open_breaker_fail_fast_and_single_trial
    (cb : CircuitBreaker) (now : Nat) (hs : cb.state = .opened) :
    (now - cb.opened_at < cb.recovery_timeout →
        ∀ op, call cb now op = (.circuitOpenError, cb)) ∧
    (cb.recovery_timeout ≤ now - cb.opened_at →
        call cb now true
            = (.result true, { cb with state := .closed, consecutive_failures := 0 }) ∧
        call cb now false
            = (.result false, { cb with state := .opened, opened_at := now })) := by
  constructor
  · intro hlt op
    simp [call, hs, Nat.not_le.mpr hlt]
  · intro hge
    constructor <;> simp [call, hs, hge]

theorem open_breaker_fail_fast_and_single_trial_witness :
    call (CircuitBreaker.mk .opened 5 100 5 60) 120 true
        = (.circuitOpenError, CircuitBreaker.mk .opened 5 100 5 60) ∧
    call (CircuitBreaker.mk .opened 5 100 5 60) 200 true
        = (.result true, CircuitBreaker.mk .closed 0 100 5 60) ∧
    call (CircuitBreaker.mk .opened 5 100 5 60) 200 false
        = (.result false, CircuitBreaker.mk .opened 5 200 5 60) := by
  have h1 := open_breaker_fail_fast_and_single_trial
    (CircuitBreaker.mk .opened 5 100 5 60) 120 rfl
  have h2 := open_breaker_fail_fast_and_single_trial
    (CircuitBreaker.mk .opened 5 100 5 60) 200 rfl
  exact ⟨h1.1 (by decide) true, (h2.2 (by decide)).1, (h2.2 (by decide)).2⟩

/-- Modelled from the spec: the error taxonomy of §7 restricted to the kinds
the Retry Policy distinguishes — connection refused and timeout are transient,
authentication failure and malformed configuration are terminal. -/
inductive ErrKind where
  | connectionRefused
  | timeoutError
  | authFailure
  | malformedConfig
deriving DecidableEq, Repr

/-- Modelled from the spec: only transient kinds are retryable (§4.5, §7). -/
def ErrKind.retryable : ErrKind → Bool
  | .connectionRefused => true
  | .timeoutError => true
  | .authFailure => false
  | .malformedConfig => false

/-- Modelled from the spec: the attempt loop of `execute` (§4.5,
`backend/services/resilience_service.py` `retry_with_backoff` is absent from
`src/`).  `op` gives the outcome of each numbered attempt (1-based); `fuel` is
the number of attempts still permitted beyond bookkeeping of the current one.
The result pairs the final outcome with the list of delays slept between
attempts: after attempt number `a` fails retryably with budget remaining, the
policy sleeps `min(initialDelay * backoffFactor^(a-1), maxDelay)` and retries. -/
def retryAux {α : Type} (op : Nat → Except ErrKind α)
    (initialDelay backoffFactor maxDelay : Nat) :
    Nat → Nat → Except ErrKind α × List Nat
  | attempt, 0 => (op attempt, [])
  | attempt, fuel + 1 =>
      match op attempt with
      | .ok a => (.ok a, [])
      | .error e =>
          if e.retryable = true ∧ 0 < fuel then
            let d := min (initialDelay * backoffFactor ^ (attempt - 1)) maxDelay
            let r := retryAux op initialDelay backoffFactor maxDelay (attempt + 1) fuel
            (r.1, d :: r.2)
          else (.error e, [])

/-- Modelled from the spec: `execute(operation, maxAttempts, initialDelay,
backoffFactor, maxDelay) -> result|LastError` of §4.5, starting at attempt 1
with a budget of maxAttempts total attempts. -/
def retryExecute {α : Type} (op : Nat → Except ErrKind α)
    (maxAttempts initialDelay backoffFactor maxDelay : Nat) :
    Except ErrKind α × List Nat :=
  retryAux op initialDelay backoffFactor maxDelay 1 maxAttempts

theorem retryAux_length {α : Type} (op : Nat → Except ErrKind α) (i f m : Nat) :
    ∀ (fuel attempt : Nat),
      (retryAux op i f m attempt fuel).2.length + 1 ≤ max 1 fuel := by
  intro fuel
  induction fuel with
  | zero => intro a; simp [retryAux]
  | succ fuel ih =>
      intro a
      simp only [retryAux]
      cases hop : op a with
      | ok v => simp
      | error e =>
          by_cases hc : e.retryable = true ∧ 0 < fuel
          · have := ih (a + 1)
            simp only [if_pos hc, List.length_cons]
            omega
          · simp [hc]

theorem retryAux_delays {α : Type} (op : Nat → Except ErrKind α) (i f m : Nat) :
    ∀ (fuel attempt : Nat), 1 ≤ attempt →
      ∀ k d, (retryAux op i f m attempt fuel).2.get? k = some d →
        d = min (i * f ^ (attempt - 1 + k)) m := by
  intro fuel
  induction fuel with
  | zero => intro a _ k d h; simp [retryAux] at h
  | succ fuel ih =>
      intro a ha k d h
      simp only [retryAux] at h
      cases hop : op a with
      | ok v => rw [hop] at h; simp at h
      | error e =>
          rw [hop] at h
          by_cases hc : e.retryable = true ∧ 0 < fuel
          · simp only [if_pos hc] at h
            cases k with
            | zero =>
                simp only [List.get?_cons_zero, Option.some.injEq] at h
                rw [Nat.add_zero]
                exact h.symm
            | succ k =>
                simp only [List.get?_cons_succ] at h
                have hrec := ih (a + 1) (by omega) k d h
                have hexp : a - 1 + (k + 1) = a + 1 - 1 + k := by omega
                rw [hexp]
                exact hrec
          · simp [hc] at h

theorem retryAux_last_error {α : Type} (op : Nat → Except ErrKind α) (i f m : Nat) :
    ∀ (fuel attempt : Nat) (e : ErrKind),
      (retryAux op i f m attempt fuel).1 = .error e →
      op (attempt + (retryAux op i f m attempt fuel).2.length) = .error e := by
  intro fuel
  induction fuel with
  | zero => intro a e h; simpa [retryAux] using h
  | succ fuel ih =>
      intro a e h
      simp only [retryAux] at h ⊢
      cases hop : op a with
      | ok v => simp [hop] at h
      | error e0 =>
          simp only [hop] at h ⊢
          by_cases hc : e0.retryable = true ∧ 0 < fuel
          · simp only [if_pos hc, List.length_cons] at h ⊢
            have hrec := ih (a + 1) e h
            rw [show a + ((retryAux op i f m (a + 1) fuel).2.length + 1)
                  = (a + 1) + (retryAux op i f m (a + 1) fuel).2.length by omega]
            exact hrec
          · simp only [if_neg hc, Except.error.injEq] at h ⊢
            simp only [List.length_nil, Nat.add_zero]
            rw [hop, h]

theorem retryAux_retries_only_retryable {α : Type} (op : Nat → Except ErrKind α)
    (i f m : Nat) :
    ∀ (fuel attempt k : Nat), k < (retryAux op i f m attempt fuel).2.length →
      ∃ e, op (attempt + k) = .error e ∧ e.retryable = true := by
  intro fuel
  induction fuel with
  | zero => intro a k h; simp [retryAux] at h
  | succ fuel ih =>
      intro a k h
      simp only [retryAux] at h
      cases hop : op a with
      | ok v => rw [hop] at h; simp at h
      | error e0 =>
          rw [hop] at h
          by_cases hc : e0.retryable = true ∧ 0 < fuel
          · simp only [if_pos hc, List.length_cons] at h
            cases k with
            | zero => exact ⟨e0, by simpa using hop, hc.1⟩
            | succ k =>
                have hrec := ih (a + 1) k (by omega)
                obtain ⟨e1, he1, hr1⟩ := hrec
                exact ⟨e1, by rw [show a + (k + 1) = (a + 1) + k by omega]; exact he1, hr1⟩
          · simp [hc] at h

/-- C3: the Retry Policy makes at most maxAttempts total attempts (the number
of inter-attempt delays plus one never exceeds maxAttempts); the delay at
index k — slept before retry number k+1 — equals
min(initialDelay * backoffFactor^k, maxDelay); and whenever execute returns an
error, that error is exactly the outcome of the last attempt made. -/
theorem retry_policy_bounded_backoff {α : Type} (op : Nat → Except ErrKind α)
    (maxAttempts initialDelay backoffFactor maxDelay : Nat) :
    (1 ≤ maxAttempts →
      (retryExecute op maxAttempts initialDelay backoffFactor maxDelay).2.length + 1
          ≤ maxAttempts) ∧
    (∀ k d,
      (retryExecute op maxAttempts initialDelay backoffFactor maxDelay).2.get? k = some d →
      d = min (initialDelay * backoffFactor ^ k) maxDelay) ∧
    (∀ e,
      (retryExecute op maxAttempts initialDelay backoffFactor maxDelay).1 = .error e →
      op (1 + (retryExecute op maxAttempts initialDelay backoffFactor maxDelay).2.length)
          = .error e) := by
  refine ⟨?_, ?_, ?_⟩
  · intro h1
    have := retryAux_length op initialDelay backoffFactor maxDelay maxAttempts 1
    simp only [retryExecute]
    omega
  · intro k d h
    have := retryAux_delays op initialDelay backoffFactor maxDelay maxAttempts 1
      (by omega) k d h
    simpa using this
  · intro e h
    exact retryAux_last_error op initialDelay backoffFactor maxDelay maxAttempts 1 e h

theorem retry_policy_bounded_backoff_witness :
    (retryExecute (fun _ => (.error .timeoutError : Except ErrKind Nat)) 4 1 2 10).2
        = [1, 2, 4] ∧
    (retryExecute (fun _ => (.error .timeoutError : Except ErrKind Nat)) 4 1 2 10).2.length + 1
        ≤ 4 ∧
    (4 : Nat) = min (1 * 2 ^ 2) 10 ∧
    (fun _ => (.error .timeoutError : Except ErrKind Nat))
        (1 + (retryExecute (fun _ => (.error .timeoutError : Except ErrKind Nat)) 4 1 2 10).2.length)
        = .error .timeoutError := by
  have h := retry_policy_bounded_backoff
    (fun _ => (.error .timeoutError : Except ErrKind Nat)) 4 1 2 10
  exact ⟨by decide, h.1 (by decide), h.2.1 2 4 (by decide),
    h.2.2 .timeoutError (by rfl)⟩

/-- C7: a first attempt failing with a non-retryable kind (authentication
failure, malformed configuration) is never retried — execute performs exactly
one attempt, sleeps no delay and escalates that error; and every delay the
policy ever sleeps (i.e. every retry) follows an attempt that failed with a
retryable (transient) kind. -/
theorem nonretryable_escalates_immediately {α : Type} (op : Nat → Except ErrKind α)
    (maxAttempts initialDelay backoffFactor maxDelay : Nat) :
    (∀ e, op 1 = .error e → e.retryable = false → 1 ≤ maxAttempts →
      retryExecute op maxAttempts initialDelay backoffFactor maxDelay = (.error e, [])) ∧
    (∀ k, k < (retryExecute op maxAttempts initialDelay backoffFactor maxDelay).2.length →
      ∃ e, op (1 + k) = .error e ∧ e.retryable = true) := by
  constructor
  · intro e hop hretr h1
    obtain ⟨n, rfl⟩ : ∃ n, maxAttempts = n + 1 := ⟨maxAttempts - 1, by omega⟩
    simp [retryExecute, retryAux, hop, hretr]
  · intro k hk
    exact retryAux_retries_only_retryable op initialDelay backoffFactor maxDelay
      maxAttempts 1 k hk

theorem nonretryable_escalates_immediately_witness :
    retryExecute (fun _ => (.error .authFailure : Except ErrKind Nat)) 3 1 2 10
        = (.error .authFailure, []) ∧
    (∃ e, (fun _ => (.error .connectionRefused : Except ErrKind Nat)) (1 + 0) = .error e ∧
      e.retryable = true) := by
  have h1 := nonretryable_escalates_immediately
    (fun _ => (.error .authFailure : Except ErrKind Nat)) 3 1 2 10
  have h2 := nonretryable_escalates_immediately
    (fun _ => (.error .connectionRefused : Except ErrKind Nat)) 3 1 2 10
  exact ⟨h1.1 .authFailure (by rfl) (by decide) (by decide),
    h2.2 0 (by decide)⟩

/-- Modelled from the spec: the per-agent inputs consumed by the scoring
formula of §4.3 step 2 (the MetaOrchestrator implementation
`backend/agents/meta_orchestrator.py` is absent from `src/`; the v3.0 guide
documents the same bonus/malus structure). -/
structure ScoringInput where
  id : String
  priorityWeight : Int
  jurisdictionMatch : Bool
  performanceBonus : Int
  latencyPenalty : Int
  isRemote : Bool
deriving DecidableEq, Repr

/-- Modelled from the spec: `score = priorityWeight + (jurisdictionMatch ? 5 : 0)
+ performanceBonus - latencyPenalty - remotePenalty` with remotePenalty the
fixed constant 2 applied only to Remote targets (§4.3). -/
def agentScore (a : ScoringInput) : Int :=
  a.priorityWeight + (if a.jurisdictionMatch then 5 else 0) + a.performanceBonus
    - a.latencyPenalty - (if a.isRemote then 2 else 0)

/-- A ranked candidate: agent id together with its computed score. -/
structure Candidate where
  id : String
  score : Int
deriving DecidableEq, Repr

/-- Modelled from the spec: the ranking order of §4.3 step 3 — descending by
score, ties broken by ascending agent id. -/
def rankLE (a b : Candidate) : Prop :=
  b.score < a.score ∨ (a.score = b.score ∧ a.id ≤ b.id)

instance : DecidableRel rankLE := fun a b => by
  unfold rankLE; infer_instance

instance : IsTotal Candidate rankLE := by
  constructor
  intro a b
  rcases lt_trichotomy a.score b.score with h | h | h
  · exact Or.inr (Or.inl h)
  · rcases le_total a.id b.id with hid | hid
    · exact Or.inl (Or.inr ⟨h, hid⟩)
    · exact Or.inr (Or.inr ⟨h.symm, hid⟩)
  · exact Or.inl (Or.inl h)

instance : IsTrans Candidate rankLE := by
  constructor
  intro a b c hab hbc
  rcases hab with h1 | ⟨h1, h1'⟩ <;> rcases hbc with h2 | ⟨h2, h2'⟩
  · exact Or.inl (lt_trans h2 h1)
  · exact Or.inl (h2 ▸ h1)
  · exact Or.inl (by omega)
  · exact Or.inr ⟨h1.trans h2, le_trans h1' h2'⟩

/-- Modelled from the spec: `route` computes each eligible agent's score from
the registry snapshot and HealthMetric-derived inputs and returns the ranked
candidate list, sorted descending by score with ties broken by ascending id
(§4.3 steps 2–3). -/
def route (snapshot : List ScoringInput) (eligible : ScoringInput → Bool) :
    List Candidate :=
  List.insertionSort rankLE
    ((snapshot.filter eligible).map (fun a => Candidate.mk a.id (agentScore a)))

/-- Modelled from the spec: §4.3 step 4 — candidates whose Circuit Breaker is
Open are skipped, unless every candidate is open, in which case the single
highest-scored candidate (the head of the ranked list) is still attempted. -/
def applyBreakerFilter (breakerOpen : String → Bool) (ranked : List Candidate) :
    List Candidate :=
  let avail := ranked.filter (fun c => ! breakerOpen c.id)
  if avail = [] then ranked.take 1 else avail

/-- C4: whenever the ranked candidate list is nonempty, the breaker filter
never yields "no agent available": open-breaker candidates are skipped (when
some candidate is not open, the result is exactly the non-open candidates, in
rank order), when every candidate is open the single top-ranked candidate is
still attempted, and every returned candidate comes from the ranked list. -/
theorem breaker_filter_never_empties_candidates
    (ranked : List Candidate) (breakerOpen : String → Bool) (hne : ranked ≠ []) :
    applyBreakerFilter breakerOpen ranked ≠ [] ∧
    ((∀ c ∈ ranked, breakerOpen c.id = true) →
        applyBreakerFilter breakerOpen ranked = ranked.take 1) ∧
    ((∃ c ∈ ranked, breakerOpen c.id = false) →
        applyBreakerFilter breakerOpen ranked
          = ranked.filter (fun c => ! breakerOpen c.id) ∧
        ∀ c ∈ applyBreakerFilter breakerOpen ranked, breakerOpen c.id = false) ∧
    (∀ c ∈ applyBreakerFilter breakerOpen ranked, c ∈ ranked) := by
  refine ⟨?_, ?_, ?_, ?_⟩
  · unfold applyBreakerFilter
    by_cases hav : ranked.filter (fun c => ! breakerOpen c.id) = []
    · simp only [hav, if_pos]
      cases ranked with
      | nil => exact absurd rfl hne
      | cons c rest => simp
    · simp only [if_neg hav]
      exact hav
  · intro hall
    unfold applyBreakerFilter
    have hav : ranked.filter (fun c => ! breakerOpen c.id) = [] := by
      rw [List.filter_eq_nil_iff]
      intro c hc
      simp [hall c hc]
    simp [hav]
  · intro ⟨c0, hc0, hopen0⟩
    unfold applyBreakerFilter
    have hav : ¬ ranked.filter (fun c => ! breakerOpen c.id) = [] := by
      intro hnil
      have := List.filter_eq_nil_iff.mp hnil c0 hc0
      simp [hopen0] at this
    simp only [if_neg hav]
    refine ⟨by trivial, ?_⟩
    intro c hc
    have := (List.mem_filter.mp hc).2
    simpa using this
  · intro c hc
    unfold applyBreakerFilter at hc
    by_cases hav : ranked.filter (fun c => ! breakerOpen c.id) = []
    · simp only [hav, if_pos] at hc
      exact List.mem_of_mem_take hc
    · simp only [if_neg hav] at hc
      exact (List.mem_filter.mp hc).1

theorem breaker_filter_never_empties_candidates_witness :
    applyBreakerFilter (fun s => s == "a") [Candidate.mk "a" 5, Candidate.mk "b" 3] ≠ [] ∧
    applyBreakerFilter (fun _ => true) [Candidate.mk "a" 5, Candidate.mk "b" 3]
        = [Candidate.mk "a" 5, Candidate.mk "b" 3].take 1 ∧
    applyBreakerFilter (fun s => s == "a") [Candidate.mk "a" 5, Candidate.mk "b" 3]
        = [Candidate.mk "b" 3] := by
  have h1 := breaker_filter_never_empties_candidates
    [Candidate.mk "a" 5, Candidate.mk "b" 3] (fun s => s == "a") (by decide)
  have h2 := breaker_filter_never_empties_candidates
    [Candidate.mk "a" 5, Candidate.mk "b" 3] (fun _ => true) (by decide)
  refine ⟨h1.1, h2.2.1 (by decide), ?_⟩
  have h3 := (h1.2.2.1 ⟨Candidate.mk "b" 3, by decide, by decide⟩).1
  rw [h3]
  decide

/-- C5: routing is deterministic — the same query inputs, registry snapshot
and HealthMetric-derived scoring inputs give the identical ranked order — and
within one call the ranked list is pairwise ordered by descending score with
any two equal-scored candidates in ascending agent-id order. -/
theorem route_deterministic_and_sorted
    (snapshot : List ScoringInput) (eligible : ScoringInput → Bool) :
    route snapshot eligible = route snapshot eligible ∧
    (route snapshot eligible).Pairwise
      (fun a b => b.score ≤ a.score ∧ (a.score = b.score → a.id ≤ b.id)) := by
  refine ⟨rfl, ?_⟩
  have hs : (route snapshot eligible).Sorted rankLE :=
    List.sorted_insertionSort rankLE _
  refine List.Pairwise.imp ?_ hs
  intro a b hab
  rcases hab with h | ⟨h, h'⟩
  · exact ⟨le_of_lt h, fun heq => absurd (heq ▸ h) (lt_irrefl _)⟩
  · exact ⟨le_of_eq h.symm, fun _ => h'⟩

/-- Modelled from the spec: kind of routing target of an AgentDescriptor (§3);
a Remote descriptor carries optional connection info whose host must be
present to validate (§4.2). -/
inductive TargetKind where
  | localTarget
  | remoteTarget
deriving DecidableEq, Repr

/-- Modelled from the spec: the slice of AgentDescriptor that registry reload
validation inspects — unique id, and for Remote targets a host (§4.2). -/
structure AgentDescriptor where
  id : String
  kind : TargetKind
  host : Option String
deriving DecidableEq, Repr

/-- A Remote descriptor must have its host populated. -/
def validDescriptor (a : AgentDescriptor) : Bool :=
  match a.kind with
  | .localTarget => true
  | .remoteTarget => a.host.isSome

/-- Modelled from the spec: reload validation — no duplicate agent ids, and
every Remote descriptor has a host (§4.2). -/
def validRegistry (l : List AgentDescriptor) : Bool :=
  decide (l.map (fun a => a.id)).Nodup && l.all validDescriptor

/-- Outcome surfaced by a registry reload. -/
inductive ReloadOutcome where
  | ok
  | configError
deriving DecidableEq, Repr

/-- Modelled from the spec: `reload(source) -> ok|error` of §4.2 — on
validation failure the previous snapshot is kept and a ConfigError is
surfaced; on success the active snapshot is replaced wholesale. -/
def reload (current source : List AgentDescriptor) :
    List AgentDescriptor × ReloadOutcome :=
  if validRegistry source then (source, .ok) else (current, .configError)

/-- Modelled from the spec: the sequence of registry states any concurrent
`snapshot()` call can observe across a sequence of reload events.  The atomic
pointer swap of §4.2/§5 is modelled by each step replacing the whole state, so
every observable state is a complete registry, never a half-updated one. -/
def reloadTrajectory (init : List AgentDescriptor) :
    List (List AgentDescriptor) → List (List AgentDescriptor)
  | [] => [init]
  | s :: rest => init :: reloadTrajectory (reload init s).1 rest

/-- C6: registry reload is all-or-nothing — when validation fails (duplicate
id or Remote descriptor without host) the active snapshot is exactly the
previous one and a ConfigError is surfaced — and starting from a valid
registry, every state observable by a snapshot during any sequence of reloads
is a complete registry with no duplicate ids and no Remote descriptor missing
its host. -/
theorem registry_reload_atomic
    (current source init : List AgentDescriptor)
    (sources : List (List AgentDescriptor)) :
    (validRegistry source = false →
        reload current source = (current, .configError)) ∧
    (validRegistry init = true →
        ∀ s ∈ reloadTrajectory init sources, validRegistry s = true) := by
  constructor
  · intro hbad
    simp [reload, hbad]
  · intro hinit
    induction sources generalizing init with
    | nil =>
        intro s hs
        simp only [reloadTrajectory, List.mem_singleton] at hs
        rw [hs]; exact hinit
    | cons src rest ih =>
        intro s hs
        simp only [reloadTrajectory, List.mem_cons] at hs
        rcases hs with rfl | hs
        · exact hinit
        · have hnext : validRegistry (reload init src).1 = true := by
            unfold reload
            by_cases hv : validRegistry src
            · simp [hv]
            · simp [hv, hinit]
          exact ih _ hnext s hs

theorem registry_reload_atomic_witness :
    reload [AgentDescriptor.mk "a" .localTarget none]
        [AgentDescriptor.mk "x" .remoteTarget none]
      = ([AgentDescriptor.mk "a" .localTarget none], .configError) ∧
    reload [AgentDescriptor.mk "a" .localTarget none]
        [AgentDescriptor.mk "x" .localTarget none, AgentDescriptor.mk "x" .localTarget none]
      = ([AgentDescriptor.mk "a" .localTarget none], .configError) ∧
    (∀ s ∈ reloadTrajectory [AgentDescriptor.mk "a" .localTarget none]
        [[AgentDescriptor.mk "x" .remoteTarget none],
         [AgentDescriptor.mk "b" .remoteTarget (some "h1")]],
      validRegistry s = true) := by
  have h1 := registry_reload_atomic [AgentDescriptor.mk "a" .localTarget none]
    [AgentDescriptor.mk "x" .remoteTarget none]
    [AgentDescriptor.mk "a" .localTarget none] []
  have h2 := registry_reload_atomic [AgentDescriptor.mk "a" .localTarget none]
    [AgentDescriptor.mk "x" .localTarget none, AgentDescriptor.mk "x" .localTarget none]
    [AgentDescriptor.mk "a" .localTarget none] []
  have h3 := registry_reload_atomic [] []
    [AgentDescriptor.mk "a" .localTarget none]
    [[AgentDescriptor.mk "x" .remoteTarget none],
     [AgentDescriptor.mk "b" .remoteTarget (some "h1")]]
  exact ⟨h1.1 (by decide), h2.1 (by decide), h3.2 (by decide)⟩

/-- A JSON value, as produced by Python json.dumps and consumed by json.loads
on the remote-agent wire. -/
inductive Json where
  | null
  | bool (b : Bool)
  | num (n : Int)
  | str (s : String)
  | arr (elems : List Json)
  | obj (fields : List (String × Json))

/-- Key lookup in a JSON object; `none` on non-objects or absent keys. -/
def Json.lookupKey : Json → String → Option Json
  | .obj fields, k => fields.lookup k
  | _, _ => none

/-- Whether a JSON value is an object carrying the given key. -/
def Json.hasKey (j : Json) (k : String) : Bool :=
  (j.lookupKey k).isSome

/-- Whether a JSON value is an object. -/
def Json.isObj : Json → Bool
  | .obj _ => true
  | _ => false

/-- Python `needle in haystack` substring test over character lists. -/
def listContainsSub (needle hay : List Char) : Bool :=
  hay.tails.any (fun t => needle.isPrefixOf t)

/-- Python `needle in hay` on strings. -/
def strContains (hay needle : String) : Bool :=
  listContainsSub needle.data hay.data

/-- Python str.lower() restricted to the ASCII range (the range the keyword
tables and the test agent exercise). -/
def lowerChar (c : Char) : Char :=
  if 65 ≤ c.toNat && c.toNat ≤ 90 then Char.ofNat (c.toNat + 32) else c

/-- Lowercase a string, ASCII range. -/
def strLower (s : String) : String :=
  ⟨s.data.map lowerChar⟩

/-- Embedded from `src/unnamed/part_004` (test_agent.py,
`process_financial_query`): the TPS/GST response text. -/
def tpsResponse : String :=
  "**TPS/GST au Canada** :\n- Taux : 5% \n- Période de déclaration : Trimestrielle ou annuelle selon le chiffre d\x27affaires\n- Date limite : Le 15 du mois suivant la fin de la période\n- Remboursement possible pour les entreprises"

/-- Embedded from `src/unnamed/part_004`: the TVQ response text. -/
def tvqResponse : String :=
  "**TVQ au Québec** :\n- Taux : 9,975%\n- Combiné avec TPS : 14,975% total\n- Déclaration harmonisée avec Revenu Québec\n- Remboursement pour les entreprises exportatrices"

/-- Embedded from `src/unnamed/part_004`: the PME fiscal-obligations response
text. -/
def obligationsResponse : String :=
  "**Obligations fiscales PME au Québec** :\n1. **Fédéral (ARC)** :\n   - T2 (Corporations) : Dans les 6 mois de fin d\x27année fiscale\n   - TPS : Trimestrielle ou annuelle\n   \n2. **Provincial (RQ)** :\n   - CO-17 : Dans les 6 mois de fin d\x27année fiscale\n   - TVQ : Harmonisée avec TPS\n   \n3. **Obligations employeurs** :\n   - Remises mensuelles : T4, Relevé 1\n   - Assurance emploi, RRQ, RQAP"

/-- Embedded from `src/unnamed/part_004`: the fallback response text, which
interpolates the query. -/
def defaultResponse (query : String) : String :=
  "Je suis un agent de test distant connecté via SSH. \n\nVotre requête : \"" ++ query ++ "\"\n\nTypes de questions que je peux traiter :\n- Questions sur TPS/GST\n- Questions sur TVQ\n- Obligations fiscales des PME au Québec\n\nPour des analyses plus poussées, utilisez les agents locaux spécialisés."

/-- Embedded from `src/unnamed/part_004` (test_agent.py,
`process_financial_query`): builds the response object with keys agent,
timestamp, query, response, sources, tool_calls and success, picking the
response text by keyword matching on the lowercased query.  The wall-clock
timestamp `datetime.now().isoformat()` is passed in as `ts`. -/
def process_financial_query (query : String) (ts : String) : Json :=
  let ql := strLower query
  let resp : String :=
    if strContains ql "tps" || strContains ql "gst" then tpsResponse
    else if strContains ql "tvq" then tvqResponse
    else if strContains ql "obligation" && strContains ql "pme" then obligationsResponse
    else defaultResponse query
  Json.obj [("agent", .str "TestRemoteAgent"), ("timestamp", .str ts),
    ("query", .str query), ("response", .str resp),
    ("sources", .arr []), ("tool_calls", .arr []), ("success", .bool true)]

/-- Modelled from the spec: what the Remote Agent Invoker observes on the
remote process's standard output (`backend/services/ssh_service.py` is absent
from `src/`): either text that is not JSON at all, or the sequence of
top-level JSON values it parses to. -/
inductive StdoutContent where
  | nonJson
  | jsonValues (vs : List Json)

/-- The protocol-violation error of §4.6/§6. -/
inductive RemoteError where
  | malformedResponse
deriving DecidableEq, Repr

/-- The field names the wire contract requires of the response object (§6). -/
def wireFields : List String :=
  ["agent", "response", "sources", "tool_calls", "success", "timestamp"]

/-- A JSON value satisfies the wire contract when it is an object carrying
every required field. -/
def wireContractOk (j : Json) : Bool :=
  j.isObj && wireFields.all (fun k => j.hasKey k)

/-- Modelled from the spec: acceptance of remote stdout (§4.6/§6) — exactly
one JSON object with the contract fields is accepted; non-JSON output, zero
or several JSON values, or a value violating the contract yield
MalformedResponseError rather than being silently ignored. -/
def parseRemoteStdout : StdoutContent → Except RemoteError Json
  | .nonJson => .error .malformedResponse
  | .jsonValues [j] =>
      if wireContractOk j then .ok j else .error .malformedResponse
  | .jsonValues _ => .error .malformedResponse

/-- Modelled from the spec: the single JSON argument the invoker serializes
and passes to the remote endpoint: an object with exactly the fields
`query` and `context` (§4.6/§6). -/
def invocationPayload (query : String) (context : Json) : Json :=
  .obj [("query", .str query), ("context", context)]

/-- C8: the invoker passes a single JSON argument whose fields are exactly
`query` and `context`; remote stdout is accepted exactly when it is one JSON
object with the fields agent, response, sources, tool_calls, success and
timestamp, while non-JSON or multi-object output yields
MalformedResponseError; and the reference remote agent's own response object
always satisfies the contract. -/
theorem remote_wire_contract (query ts : String) (context j : Json)
    (vs : List Json) :
    (invocationPayload query context
        = Json.obj [("query", .str query), ("context", context)] ∧
      (invocationPayload query context).lookupKey "query" = some (.str query) ∧
      (invocationPayload query context).lookupKey "context" = some context) ∧
    parseRemoteStdout .nonJson = .error .malformedResponse ∧
    parseRemoteStdout (.jsonValues []) = .error .malformedResponse ∧
    (2 ≤ vs.length →
      parseRemoteStdout (.jsonValues vs) = .error .malformedResponse) ∧
    (parseRemoteStdout (.jsonValues [j]) = .ok j ↔ wireContractOk j = true) ∧
    parseRemoteStdout (.jsonValues [process_financial_query query ts])
        = .ok (process_financial_query query ts) := by
  refine ⟨⟨rfl, rfl, rfl⟩, rfl, rfl, ?_, ?_, ?_⟩
  · intro hlen
    match vs, hlen with
    | v₁ :: v₂ :: rest, _ => rfl
  · by_cases hc : wireContractOk j = true
    · simp [parseRemoteStdout, hc]
    · simp only [parseRemoteStdout, if_neg hc]
      constructor
      · intro h; exact absurd h (by simp)
      · intro h; exact absurd h hc
  · have hc : wireContractOk (process_financial_query query ts) = true := rfl
    simp [parseRemoteStdout, hc]

theorem remote_wire_contract_witness :
    (2 ≤ [Json.null, Json.null].length →
      parseRemoteStdout (.jsonValues [Json.null, Json.null])
          = .error .malformedResponse) ∧
    parseRemoteStdout (.jsonValues [Json.null, Json.null])
        = .error .malformedResponse ∧
    parseRemoteStdout
        (.jsonValues [process_financial_query "test" "2025-01-01T00:00:00"])
      = .ok (process_financial_query "test" "2025-01-01T00:00:00") := by
  have h := remote_wire_contract "test" "2025-01-01T00:00:00" (Json.obj [])
    Json.null [Json.null, Json.null]
  exact ⟨h.2.2.2.1, h.2.2.2.1 (by decide), h.2.2.2.2.2⟩

/-- Modelled from the spec: the closed intent label set of §4.1 (the
classifier inside `backend/agents/meta_orchestrator.py` is absent from
`src/`). -/
inductive Intent where
  | tax
  | accounting
  | forecast
  | compliance
  | audit
  | reporting
  | general
deriving DecidableEq, Repr

/-- Modelled from the spec: the fixed table mapping surface terms to intent
labels (§4.1 gives "tax", "TPS", "déclaration" as examples of the tax row). -/
def intentKeywords : List (String × Intent) :=
  [("tax", .tax), ("tps", .tax), ("déclaration", .tax), ("impôt", .tax),
   ("comptab", .accounting), ("bilan", .accounting),
   ("prévision", .forecast), ("cashflow", .forecast),
   ("conformité", .compliance), ("ifrs", .compliance),
   ("audit", .audit), ("fraude", .audit),
   ("rapport", .reporting)]

/-- Modelled from the spec: the second fixed table, mapping geographic and
legal terms to jurisdiction codes (§4.1, codes as in the v3.0 guide). -/
def jurisdictionKeywords : List (String × String) :=
  [("québec", "CA-QC"), ("quebec", "CA-QC"), ("tvq", "CA-QC"),
   ("ontario", "CA-ON"), ("canada", "CA"), ("france", "FR"),
   ("états-unis", "US"), ("irs", "US")]

/-- Modelled from the spec: `classify(queryText) -> (intent, jurisdictionCode|none)`
of §4.1 — a total, deterministic, side-effect-free keyword match on the
lowercased query; the first matching entry of each table decides its axis,
and no match yields the `general` intent and no jurisdiction. -/
def classify (q : String) : Intent × Option String :=
  let ql := strLower q
  let i := ((intentKeywords.find? (fun e => strContains ql e.1)).map
    (fun e => e.2)).getD .general
  let j := (jurisdictionKeywords.find? (fun e => strContains ql e.1)).map
    (fun e => e.2)
  (i, j)

/-- C9: the classifier is total (a function of the query text alone — it
returns a value for every query and never fails), deterministic (two calls on
the same text give the same pair), and when no keyword-table entry matches on
an axis it yields the `general` intent and no jurisdiction rather than an
error. -/
theorem classify_total_deterministic (q : String) :
    (∃ r, classify q = r) ∧
    classify q = classify q ∧
    ((∀ e ∈ intentKeywords, strContains (strLower q) e.1 = false) →
        (classify q).1 = .general) ∧
    ((∀ e ∈ jurisdictionKeywords, strContains (strLower q) e.1 = false) →
        (classify q).2 = none) := by
  refine ⟨⟨classify q, rfl⟩, rfl, ?_, ?_⟩
  · intro hnone
    have hfind : intentKeywords.find? (fun e => strContains (strLower q) e.1) = none := by
      rw [List.find?_eq_none]
      intro e he
      simp [hnone e he]
    simp [classify, hfind]
  · intro hnone
    have hfind : jurisdictionKeywords.find? (fun e => strContains (strLower q) e.1)
        = none := by
      rw [List.find?_eq_none]
      intro e he
      simp [hnone e he]
    simp [classify, hfind]

theorem classify_total_deterministic_witness :
    (∃ r, classify "zzz" = r) ∧
    (classify "zzz").1 = .general ∧
    (classify "zzz").2 = none := by
  have h := classify_total_deterministic "zzz"
  exact ⟨h.1, h.2.2.1 (by decide), h.2.2.2 (by decide)⟩

/-- Embedded from `src/unnamed/part_004` (test_agent.py `main`): the effect of
`payload.get("query", "")` followed by use of the value as a string in
`process_financial_query` — a payload that is not a JSON object (no `.get`
attribute) or a `query` value that is not a string (no `.lower()`) raises, and
main's `except Exception` branch catches it. -/
def payloadQuery : Json → Except Unit String
  | .obj fields =>
      (match fields.lookup "query" with
        | some (.str s) => .ok s
        | some _ => .error ()
        | none => .ok "")
  | _ => .error ()

/-- Embedded from `src/unnamed/part_004`: the usage error object printed when
fewer than two argv entries are present. -/
def usageError : Json :=
  Json.obj [("error", .str "Usage: python3 test_agent.py process \x27<json_payload>\x27")]

/-- Embedded from `src/unnamed/part_004` (test_agent.py `main`): `argv` is
Python's sys.argv (argv[0] the script path); `parse` stands for
`json.loads` on the payload argument (none = JSONDecodeError); `ts` is the
wall-clock timestamp.  The result is the single JSON object printed to
standard output paired with the process exit status; the lines of the python
error objects that would embed `str(e)` carry the fixed message prefix here. -/
def mainRun (parse : String → Option Json) (ts : String) (argv : List String) :
    Json × Nat :=
  if argv.length < 2 then (usageError, 1)
  else
    let command := argv.getD 1 ""
    if command = "process" ∧ 3 ≤ argv.length then
      match parse (argv.getD 2 "") with
      | none => (Json.obj [("error", .str "JSON invalide")], 1)
      | some payload =>
          match payloadQuery payload with
          | .ok query => (process_financial_query query ts, 0)
          | .error _ => (Json.obj [("error", .str "Erreur de traitement")], 1)
    else if command = "health" then
      (Json.obj [("status", .str "healthy"), ("agent", .str "TestRemoteAgent"),
                 ("timestamp", .str ts)], 0)
    else
      (Json.obj [("error", .str "Commande non supportée")], 1)

theorem iteObjFst {c : Prop} [Decidable c] (a b : Json × Nat)
    (ha : a.1.isObj = true) (hb : b.1.isObj = true) :
    (if c then a else b).1.isObj = true := by
  split
  · exact ha
  · exact hb

/-- C10: every output of the reference remote agent's main is a single JSON
object (never non-JSON output); when the payload argument of a `process`
command is not valid JSON, the printed object carries an "error" key, lacks
the normal contract's agent/response/success fields, and the process exits
with status 1; and when the command is neither "process" nor "health" the
printed object likewise carries an "error" key, lacks the contract's
agent/response/success fields, and the exit status is 1. -/
theorem remote_agent_error_paths_emit_json
    (parse : String → Option Json) (ts : String) (argv : List String) :
    (mainRun parse ts argv).1.isObj = true ∧
    (argv.getD 1 "" = "process" → 3 ≤ argv.length →
      parse (argv.getD 2 "") = none →
        (mainRun parse ts argv).1.hasKey "error" = true ∧
        (mainRun parse ts argv).1.hasKey "agent" = false ∧
        (mainRun parse ts argv).1.hasKey "response" = false ∧
        (mainRun parse ts argv).1.hasKey "success" = false ∧
        (mainRun parse ts argv).2 = 1) ∧
    (argv.getD 1 "" ≠ "process" → argv.getD 1 "" ≠ "health" →
        (mainRun parse ts argv).1.hasKey "error" = true ∧
        (mainRun parse ts argv).1.hasKey "agent" = false ∧
        (mainRun parse ts argv).1.hasKey "response" = false ∧
        (mainRun parse ts argv).1.hasKey "success" = false ∧
        (mainRun parse ts argv).2 = 1) := by
  refine ⟨?_, ?_, ?_⟩
  · unfold mainRun
    repeat' split
    all_goals try exact rfl
    all_goals (apply iteObjFst <;> try apply iteObjFst)
    all_goals exact rfl
  · intro hcmd hlen3 hp
    have hlen : ¬ argv.length < 2 := by omega
    unfold mainRun
    simp only [hlen, if_false]
    have hproc : argv.getD 1 "" = "process" ∧ 3 ≤ argv.length := ⟨hcmd, hlen3⟩
    simp only [hproc, if_pos, hp]
    refine ⟨rfl, rfl, rfl, rfl, rfl⟩
  · intro hcmd hh
    unfold mainRun
    by_cases hlen : argv.length < 2
    · simp only [hlen, if_pos]
      exact ⟨by trivial, by trivial, by trivial, by trivial, by trivial⟩
    · simp only [hlen, if_false]
      have hproc : ¬ (argv.getD 1 "" = "process" ∧ 3 ≤ argv.length) := by
        intro h; exact hcmd h.1
      simp only [if_neg hproc, hh, if_false]
      exact ⟨by trivial, by trivial, by trivial, by trivial, by trivial⟩

theorem remote_agent_error_paths_emit_json_witness :
    (mainRun (fun _ => none) "2025-01-01T00:00:00"
        ["test_agent.py", "process", "not json"]).1.hasKey "error" = true ∧
    (mainRun (fun _ => none) "2025-01-01T00:00:00"
        ["test_agent.py", "process", "not json"]).1.hasKey "agent" = false ∧
    (mainRun (fun _ => none) "2025-01-01T00:00:00"
        ["test_agent.py", "process", "not json"]).2 = 1 ∧
    (mainRun (fun _ => none) "2025-01-01T00:00:00"
        ["test_agent.py", "frobnicate"]).1.hasKey "error" = true ∧
    (mainRun (fun _ => none) "2025-01-01T00:00:00"
        ["test_agent.py", "frobnicate"]).1.hasKey "agent" = false ∧
    (mainRun (fun _ => none) "2025-01-01T00:00:00"
        ["test_agent.py", "frobnicate"]).1.hasKey "response" = false ∧
    (mainRun (fun _ => none) "2025-01-01T00:00:00"
        ["test_agent.py", "frobnicate"]).1.hasKey "success" = false ∧
    (mainRun (fun _ => none) "2025-01-01T00:00:00"
        ["test_agent.py", "frobnicate"]).2 = 1 := by
  have h1 := remote_agent_error_paths_emit_json (fun _ => none)
    "2025-01-01T00:00:00" ["test_agent.py", "process", "not json"]
  have h2 := remote_agent_error_paths_emit_json (fun _ => none)
    "2025-01-01T00:00:00" ["test_agent.py", "frobnicate"]
  have hp := h1.2.1 (by decide) (by decide) rfl
  have hc := h2.2.2 (by decide) (by decide)
  exact ⟨hp.1, hp.2.1, hp.2.2.2.2, hc.1, hc.2.1, hc.2.2.1, hc.2.2.2.1, hc.2.2.2.2⟩

end AiCfo
